import Mathlib

/-!
Verification of the particle-field animation in `src/index.js` against its
specification. The JavaScript numbers (IEEE doubles) are modelled as exact
rationals, and quantities that are inherently real-valued (`Math.cos`,
`Math.sin`, `Math.sqrt` in the stroke-opacity formula) as real numbers;
`Math.sqrt` inside the update step is abstracted as a function parameter,
since every property proved about the update step is independent of its
value (only its positivity on positive inputs matters, which is a property
of the real square root). `Math.random()` results are passed in explicitly
as parameters, in the order the source draws them.
-/

namespace Grek

/-! ## Population manager: `adjustParticleCount` (src/index.js lines 40-65) -/

/-- `particleConfig.heightConditions` (line 42). -/
def heightConditions : List ℕ := [200, 300, 400, 500, 600]

/-- `particleConfig.widthConditions` (line 43). -/
def widthConditions : List ℕ := [450, 600, 900, 1200, 1600]

/-- `particleConfig.particlesForHeight` (line 44). -/
def particlesForHeight : List ℕ := [40, 60, 70, 90, 110]

/-- `particleConfig.particlesForWidth` (line 45). -/
def particlesForWidth : List ℕ := [40, 50, 70, 90, 110]

/-- The first-threshold-strictly-below loop shared by the two loops of
`adjustParticleCount` (lines 50-62): returns the value paired with the first
condition that `x` is strictly below, if any. -/
def firstHit : List ℕ → List ℕ → ℕ → Option ℕ
  | c :: cs, v :: vs, x => if x < c then some v else firstHit cs vs x
  | _, _, _ => none

/-- `adjustParticleCount()` (lines 40-65): start at 130, the height loop
overwrites with the first matching height value, the width loop takes the
minimum with the first matching width value. `canvas.width`/`canvas.height`
are unsigned integers in the DOM, hence `ℕ`. -/
def adjustParticleCount (width height : ℕ) : ℕ :=
  let n0 := (firstHit heightConditions particlesForHeight height).getD 130
  match firstHit widthConditions particlesForWidth width with
  | some v => min n0 v
  | none => n0

/-- Evaluating the height loop on the literal tables. -/
lemma firstHit_height (h : ℕ) :
    firstHit heightConditions particlesForHeight h =
      if h < 200 then some 40 else if h < 300 then some 60 else if h < 400 then some 70
      else if h < 500 then some 90 else if h < 600 then some 110 else none := by
  simp only [heightConditions, particlesForHeight, firstHit]

/-- Evaluating the width loop on the literal tables. -/
lemma firstHit_width (w : ℕ) :
    firstHit widthConditions particlesForWidth w =
      if w < 450 then some 40 else if w < 600 then some 50 else if w < 900 then some 70
      else if w < 1200 then some 90 else if w < 1600 then some 110 else none := by
  simp only [widthConditions, particlesForWidth, firstHit]

/-- C1: for every width and height, the particle count is the two-stage
lookup: the height-table candidate (first threshold the height is strictly
below wins, default 130) clamped by `min` with the width-table value (first
threshold the width is strictly below wins, unchanged if width ≥ 1600);
in particular (height 150, width 300) yields 40 and (height 250, width 800)
yields 60. -/
theorem adjustParticleCount_two_stage :
    (∀ w h : ℕ,
      adjustParticleCount w h =
        (let hc : ℕ := if h < 200 then 40 else if h < 300 then 60 else if h < 400 then 70
                   else if h < 500 then 90 else if h < 600 then 110 else 130
         if w < 450 then min hc 40 else if w < 600 then min hc 50
         else if w < 900 then min hc 70 else if w < 1200 then min hc 90
         else if w < 1600 then min hc 110 else hc)) ∧
    adjustParticleCount 300 150 = 40 ∧ adjustParticleCount 800 250 = 60 := by
  refine ⟨fun w h => ?_, by decide, by decide⟩
  rw [adjustParticleCount, firstHit_height, firstHit_width]
  by_cases h2 : h < 200 <;> by_cases h3 : h < 300 <;> by_cases h4 : h < 400 <;>
    by_cases h5 : h < 500 <;> by_cases h6 : h < 600 <;>
    simp only [h2, h3, h4, h5, h6, if_true, if_false, Option.getD_some, Option.getD_none] <;>
    by_cases w4 : w < 450 <;> by_cases w6 : w < 600 <;> by_cases w9 : w < 900 <;>
    by_cases w12 : w < 1200 <;> by_cases w16 : w < 1600 <;>
    simp only [w4, w6, w9, w12, w16, if_true, if_false]

/-! ## Data model: `Particle` (src/index.js lines 67-83) and the `mouse`
module (lines 19-35). The unused `trail: []` buffer is omitted. -/

/-- The fields assigned by the `Particle` constructor (lines 71-82), over a
numeric carrier `α` (`ℚ` for the update/linker model, `ℝ` where trigonometry
is involved). -/
structure Particle (α : Type) where
  isFirework : Bool
  x : α
  y : α
  vx : α
  vy : α
  size : α
  gray : α
  alpha : α
  sizeDirection : α

/-- The `mouse` closure state (line 20): separate, independently readable
`x` and `y` slots, each either a coordinate or `null`. -/
structure MouseState where
  x : Option ℚ
  y : Option ℚ

/-- The initial `mouse` state `{ x: null, y: null }` (line 20). -/
def mouseInit : MouseState := ⟨none, none⟩

/-- The operations the event handlers perform on the `mouse` module:
`set({x, y})` with both coordinates numbers (`mousemove`, lines 203-205,
always passes `e.clientX` and `e.clientY`), and `reset()` (`mouseleave`,
lines 207-209). -/
inductive MouseOp where
  | set (x y : ℚ)
  | reset

/-- `set` replaces the whole state object with `{ x, y }` (lines 28-30);
`reset` replaces it with `{ x: null, y: null }` (lines 31-33). -/
def applyMouseOp (_s : MouseState) : MouseOp → MouseState
  | .set x y => ⟨some x, some y⟩
  | .reset => ⟨none, none⟩

/-- C10: after any sequence of `set`/`reset` operations from the initial
state, the cursor's `x` slot is `null` exactly when its `y` slot is `null`:
both operations replace the state as a single unit, so no mixed state is
ever observable. -/
theorem mouse_null_sync (ops : List MouseOp) :
    ((ops.foldl applyMouseOp mouseInit).x = none ↔
      (ops.foldl applyMouseOp mouseInit).y = none) := by
  suffices h : ∀ s : MouseState, (s.x = none ↔ s.y = none) →
      ((ops.foldl applyMouseOp s).x = none ↔ (ops.foldl applyMouseOp s).y = none) from
    h mouseInit (by simp [mouseInit])
  induction ops with
  | nil => exact fun _ hs => hs
  | cons op rest ih =>
    intro s hs
    cases op <;> exact ih _ (by simp [applyMouseOp])

/-! ## The force/update model: `Particle.update` (src/index.js lines 85-116).

The cursor is passed as `Option (ℚ × ℚ)`: by `mouse_null_sync` the two
coordinate slots of the `mouse` module are always both present or both
`null`, so the update step only ever observes a fully present or fully
absent cursor. `Math.random()` draws and `Math.sqrt` are parameters. -/

/-- One frame's ambient inputs to `update`: the cursor, the canvas size,
the global `autoDrift` flag (line 38), the two `Math.random()` results the
drift branch may consume (lines 92-93, in order), and `Math.sqrt`. -/
structure UpdateEnv where
  mouse : Option (ℚ × ℚ)
  width : ℚ
  height : ℚ
  autoDrift : Bool
  r1 : ℚ
  r2 : ℚ
  sqrtFn : ℚ → ℚ

/-- Line 86: squared distance from the particle to the cursor, taken as 0
when `mouse.x` is `null`. -/
def mouseDist (m : Option (ℚ × ℚ)) (p : Particle ℚ) : ℚ :=
  match m with
  | some (mx, my) => (mx - p.x) ^ 2 + (my - p.y) ^ 2
  | none => 0

/-- Lines 88-106: the velocity produced by the force branch (ambient:
drift, attraction, damping — lines 89-103) or left unchanged (firework
branch, line 105, which only touches `alpha`). -/
def Particle.velStep (p : Particle ℚ) (e : UpdateEnv) : ℚ × ℚ :=
  if p.isFirework then (p.vx, p.vy)
  else
    let dist := mouseDist e.mouse p
    let force := if dist ≠ 0 ∧ dist < 22500 then (22500 - dist) / 22500 else 0
    let v0 : ℚ × ℚ :=
      if e.mouse = none ∧ e.autoDrift then
        (p.vx + (e.r1 - 0.5) * 0.03, p.vy + (e.r2 - 0.5) * 0.03)
      else (p.vx, p.vy)
    let v1 : ℚ × ℚ :=
      if dist ≠ 0 then
        match e.mouse with
        | some (mx, my) =>
          (v0.1 + (mx - p.x) / e.sqrtFn dist * force * 0.1,
           v0.2 + (my - p.y) / e.sqrtFn dist * force * 0.1)
        | none => v0
      else v0
    (v1.1 * (if e.mouse ≠ none then 0.99 else 0.998),
     v1.2 * (if e.mouse ≠ none then 0.99 else 0.998))

/-- The tail of `update` common to both branches, applied to the velocity
`v` produced by the force branch: alpha decay for fireworks (line 105),
position integration (lines 108-109), per-axis edge bounce (lines 111-112),
size oscillation (lines 114-115). -/
def Particle.integrate (p : Particle ℚ) (e : UpdateEnv) (v : ℚ × ℚ) : Particle ℚ :=
  let alpha1 := if p.isFirework then p.alpha - 0.02 else p.alpha
  let x1 := p.x + v.1
  let y1 := p.y + v.2
  let vx2 := if x1 ≤ 0 ∨ x1 ≥ e.width - 1 then v.1 * (-0.9) else v.1
  let vy2 := if y1 < 0 ∨ y1 > e.height then v.2 * (-0.9) else v.2
  let size1 := p.size + p.sizeDirection * 0.1
  let dir1 := if size1 > 4 ∨ size1 < 1 then p.sizeDirection * (-1) else p.sizeDirection
  { p with x := x1, y := y1, vx := vx2, vy := vy2,
           alpha := alpha1, size := size1, sizeDirection := dir1 }

/-- `Particle.update(mouse)` (lines 85-116). -/
def Particle.update (p : Particle ℚ) (e : UpdateEnv) : Particle ℚ :=
  p.integrate e (p.velStep e)

/-- `Particle.isDead()` (lines 125-127). -/
def Particle.isDead (p : Particle ℚ) : Bool :=
  p.isFirework && decide (p.alpha ≤ 0)

/-- A sequence of `update` calls, one per frame. -/
def runUpdates (p : Particle ℚ) (es : List UpdateEnv) : Particle ℚ :=
  es.foldl Particle.update p

lemma runUpdates_nil (p : Particle ℚ) : runUpdates p [] = p := rfl

lemma runUpdates_cons (p : Particle ℚ) (e : UpdateEnv) (es : List UpdateEnv) :
    runUpdates p (e :: es) = runUpdates (p.update e) es := rfl

/-- `update` never touches the `isFirework` flag. -/
lemma update_isFirework (p : Particle ℚ) (e : UpdateEnv) :
    (p.update e).isFirework = p.isFirework := rfl

lemma runUpdates_isFirework (p : Particle ℚ) (es : List UpdateEnv) :
    (runUpdates p es).isFirework = p.isFirework := by
  induction es generalizing p with
  | nil => rfl
  | cons e es ih => rw [runUpdates_cons, ih, update_isFirework]

/-! ## Alpha decay and `isDead` (claims C5 and C9) -/

lemma update_alpha (p : Particle ℚ) (e : UpdateEnv) :
    (p.update e).alpha = if p.isFirework then p.alpha - 0.02 else p.alpha := rfl

lemma runUpdates_alpha_firework (p : Particle ℚ) (es : List UpdateEnv)
    (h : p.isFirework = true) :
    (runUpdates p es).alpha = p.alpha - es.length * (1 / 50) := by
  induction es generalizing p with
  | nil => simp [runUpdates_nil]
  | cons e es ih =>
    rw [runUpdates_cons, ih _ (by rw [update_isFirework, h]), update_alpha, h]
    simp only [if_true, List.length_cons]
    push_cast
    ring

lemma runUpdates_alpha_ambient (p : Particle ℚ) (es : List UpdateEnv)
    (h : p.isFirework = false) :
    (runUpdates p es).alpha = p.alpha := by
  induction es generalizing p with
  | nil => rfl
  | cons e es ih =>
    rw [runUpdates_cons, ih _ (by rw [update_isFirework, h]), update_alpha, h]
    simp

/-- C5: each update decrements a firework particle's alpha by exactly 0.02,
alpha never increases across an update, a firework particle started at
alpha 1 is reported dead by `isDead` exactly when at least 50 updates have
run, and an ambient particle is never reported dead. -/
theorem firework_alpha_decay :
    (∀ (p : Particle ℚ) (e : UpdateEnv), p.isFirework = true →
        (p.update e).alpha = p.alpha - 0.02) ∧
    (∀ (p : Particle ℚ) (e : UpdateEnv), (p.update e).alpha ≤ p.alpha) ∧
    (∀ (p : Particle ℚ) (es : List UpdateEnv), p.isFirework = true → p.alpha = 1 →
        ((runUpdates p es).isDead = true ↔ 50 ≤ es.length)) ∧
    (∀ (p : Particle ℚ) (es : List UpdateEnv), p.isFirework = false →
        (runUpdates p es).isDead = false) := by
  refine ⟨fun p e h => by rw [update_alpha, h, if_pos rfl], fun p e => ?_, ?_, ?_⟩
  · rw [update_alpha]
    split_ifs <;> linarith
  · intro p es h h1
    have hf : (runUpdates p es).isFirework = true := by rw [runUpdates_isFirework, h]
    rw [Particle.isDead, hf, runUpdates_alpha_firework p es h, h1]
    simp only [Bool.true_and, decide_eq_true_eq]
    constructor
    · intro hle
      have : (50 : ℚ) ≤ (es.length : ℚ) := by linarith
      exact_mod_cast this
    · intro hge
      have : (50 : ℚ) ≤ (es.length : ℚ) := by exact_mod_cast hge
      linarith
  · intro p es h
    rw [Particle.isDead, runUpdates_isFirework, h]
    simp

/-- Witness for C5: a concrete firework particle at alpha 1 is dead after
50 concrete frames, and a concrete ambient particle is not dead after one. -/
theorem firework_alpha_decay_witness :
    (runUpdates
        { isFirework := true, x := 2, y := 2, vx := 0, vy := 0, size := 2,
          gray := 0, alpha := 1, sizeDirection := 1 }
        (List.replicate 50
          { mouse := none, width := 100, height := 100, autoDrift := false,
            r1 := 0, r2 := 0, sqrtFn := id })).isDead = true ∧
    (runUpdates
        { isFirework := false, x := 2, y := 2, vx := 0, vy := 0, size := 2,
          gray := 0, alpha := 1, sizeDirection := 1 }
        [{ mouse := none, width := 100, height := 100, autoDrift := false,
           r1 := 0, r2 := 0, sqrtFn := id }]).isDead = false :=
  ⟨(firework_alpha_decay.2.2.1 _ _ rfl rfl).mpr (by simp),
   firework_alpha_decay.2.2.2 _ _ rfl⟩

/-- C9: an ambient particle's alpha is never modified by `update`: it is
unchanged by a single update, and stays exactly 1 across any number of
updates when it starts at 1. -/
theorem ambient_alpha_constant :
    (∀ (p : Particle ℚ) (e : UpdateEnv), p.isFirework = false →
        (p.update e).alpha = p.alpha) ∧
    (∀ (p : Particle ℚ) (es : List UpdateEnv), p.isFirework = false → p.alpha = 1 →
        (runUpdates p es).alpha = 1) :=
  ⟨fun p e h => by rw [update_alpha, h, if_neg (by simp)],
   fun p es h h1 => by rw [runUpdates_alpha_ambient p es h, h1]⟩

/-- Witness for C9: a concrete ambient particle keeps alpha 1 across three
concrete frames. -/
theorem ambient_alpha_constant_witness :
    (runUpdates
        { isFirework := false, x := 2, y := 2, vx := 0, vy := 0, size := 2,
          gray := 0, alpha := 1, sizeDirection := 1 }
        (List.replicate 3
          { mouse := some (3, 4), width := 100, height := 100, autoDrift := true,
            r1 := 0, r2 := 0, sqrtFn := id })).alpha = 1 :=
  ambient_alpha_constant.2 _ _ rfl rfl

/-! ## Edge bounce (claim C6) -/

/-- C6: after position integration (`x` becomes `x + vx`), `vx` is
multiplied by `-0.9` exactly when the new `x` is `≤ 0` or `≥ width - 1`,
and `vy` is multiplied by `-0.9` exactly when the new `y` lies outside the
interval `[0, height]` (that is, `y < 0` or `y > height`); the two axes are
tested independently, so when both conditions hold (a corner) both
velocities are inverted and damped. -/
theorem edge_bounce_char (p : Particle ℚ) (e : UpdateEnv) :
    (p.update e).x = p.x + (p.velStep e).1 ∧
    (p.update e).y = p.y + (p.velStep e).2 ∧
    (p.update e).vx =
      (if p.x + (p.velStep e).1 ≤ 0 ∨ p.x + (p.velStep e).1 ≥ e.width - 1
       then (p.velStep e).1 * (-0.9) else (p.velStep e).1) ∧
    (p.update e).vy =
      (if p.y + (p.velStep e).2 < 0 ∨ p.y + (p.velStep e).2 > e.height
       then (p.velStep e).2 * (-0.9) else (p.velStep e).2) :=
  ⟨rfl, rfl, rfl, rfl⟩

/-! ## Size oscillation (claim C4).

The size step (lines 114-115) adds `sizeDirection * 0.1` first and only
then tests the bounds, so the size can overshoot `[1, 4]` by one step
(up to 4.1, or down to 0.9) before the direction flips. -/

/-- The invariant the size oscillation actually preserves: the direction is
`±1`, and the size is in `[1, 4]`, or in the overshoot band `(4, 4.1]`
moving down, or in the overshoot band `[0.9, 1)` moving up. -/
def SizeInv (s d : ℚ) : Prop :=
  (d = 1 ∨ d = -1) ∧
  ((1 ≤ s ∧ s ≤ 4) ∨ (4 < s ∧ s ≤ 4.1 ∧ d = -1) ∨ (0.9 ≤ s ∧ s < 1 ∧ d = 1))

lemma update_size (p : Particle ℚ) (e : UpdateEnv) :
    (p.update e).size = p.size + p.sizeDirection * 0.1 := rfl

lemma update_sizeDirection (p : Particle ℚ) (e : UpdateEnv) :
    (p.update e).sizeDirection =
      if p.size + p.sizeDirection * 0.1 > 4 ∨ p.size + p.sizeDirection * 0.1 < 1
      then p.sizeDirection * (-1) else p.sizeDirection := rfl

lemma sizeInv_step (p : Particle ℚ) (e : UpdateEnv)
    (h : SizeInv p.size p.sizeDirection) :
    SizeInv (p.update e).size (p.update e).sizeDirection := by
  obtain ⟨hd, hc⟩ := h
  rw [SizeInv, update_size, update_sizeDirection]
  rcases hd with hd | hd <;> rw [hd] at hc ⊢ <;>
    rcases hc with ⟨h1, h2⟩ | ⟨h1, h2, h3⟩ | ⟨h1, h2, h3⟩ <;>
    try norm_num at h3
  all_goals split_ifs with hif
  all_goals try rcases hif with hif | hif
  all_goals try push_neg at hif
  all_goals refine ⟨by norm_num, ?_⟩
  all_goals first
    | (exfalso; linarith)
    | (left; constructor <;> linarith)
    | (right; left; refine ⟨by linarith, by linarith, by norm_num⟩)
    | (right; right; refine ⟨by linarith, by linarith, by norm_num⟩)

lemma sizeInv_runUpdates (p : Particle ℚ) (es : List UpdateEnv)
    (h : SizeInv p.size p.sizeDirection) :
    SizeInv (runUpdates p es).size (runUpdates p es).sizeDirection := by
  induction es generalizing p with
  | nil => exact h
  | cons e es ih => exact ih _ (sizeInv_step p e h)

/-- Counterexample to C4 as stated: a concrete ambient particle whose size
(3.95) lies inside the constructor's initial range `[1, 4)` and whose
direction is `+1` has size 4.05 > 4 after a single update call, so
`1 ≤ size ≤ 4` does not hold after every number of updates. -/
theorem size_escapes_unit_band :
    ¬ (1 ≤ (runUpdates
          { isFirework := false, x := 50, y := 50, vx := 0, vy := 0, size := 3.95,
            gray := 0, alpha := 1, sizeDirection := 1 }
          [{ mouse := none, width := 500, height := 500, autoDrift := false,
             r1 := 0, r2 := 0, sqrtFn := id }]).size ∧
        (runUpdates
          { isFirework := false, x := 50, y := 50, vx := 0, vy := 0, size := 3.95,
            gray := 0, alpha := 1, sizeDirection := 1 }
          [{ mouse := none, width := 500, height := 500, autoDrift := false,
             r1 := 0, r2 := 0, sqrtFn := id }]).size ≤ 4) ∧
    (runUpdates
        { isFirework := false, x := 50, y := 50, vx := 0, vy := 0, size := 3.95,
          gray := 0, alpha := 1, sizeDirection := 1 }
        [{ mouse := none, width := 500, height := 500, autoDrift := false,
           r1 := 0, r2 := 0, sqrtFn := id }]).size = 4.05 := by
  have heq : (runUpdates
      { isFirework := false, x := 50, y := 50, vx := 0, vy := 0, size := 3.95,
        gray := 0, alpha := 1, sizeDirection := 1 }
      [{ mouse := none, width := 500, height := 500, autoDrift := false,
         r1 := 0, r2 := 0, sqrtFn := id }]).size = 4.05 := by
    rw [runUpdates_cons, runUpdates_nil, update_size]
    norm_num
  refine ⟨fun hcontra => ?_, heq⟩
  rw [heq] at hcontra
  have := hcontra.2
  norm_num at this

/-- C4 amended: for every particle whose size state satisfies the real
invariant (in particular any freshly constructed particle: size in `[1, 4)`
and direction `±1`), after any number of update calls the size stays in
the overshoot band `[0.9, 4.1]` — it can leave `[1, 4]` by at most one
0.1 step before the direction flips, but never escapes `[0.9, 4.1]`. -/
theorem size_stays_in_overshoot_band (p : Particle ℚ) (es : List UpdateEnv)
    (h : SizeInv p.size p.sizeDirection) :
    SizeInv (runUpdates p es).size (runUpdates p es).sizeDirection ∧
    0.9 ≤ (runUpdates p es).size ∧ (runUpdates p es).size ≤ 4.1 := by
  have hrun := sizeInv_runUpdates p es h
  refine ⟨hrun, ?_, ?_⟩ <;>
    rcases hrun.2 with ⟨h1, h2⟩ | ⟨h1, h2, h3⟩ | ⟨h1, h2, h3⟩ <;> linarith

/-! ## Division-by-zero safety of the update step (claim C7).

`updateChecked` is `update` with every division routed through a checked
division that faults (returns `none`) when the divisor is zero. The claim
is that the faulting version never faults: the attraction term's divisor
`Math.sqrt(dist)` is only reached under the `if (dist)` guard (line 96),
where `dist`, a sum of squares, is strictly positive, so its square root
is nonzero; the only other divisor is the nonzero literal 22500. -/

/-- Division that faults on a zero divisor instead of returning a junk
value. -/
def checkedDiv (a b : ℚ) : Option ℚ :=
  if b = 0 then none else some (a / b)

/-- `Particle.velStep` with faulting division. -/
def Particle.velStepChecked (p : Particle ℚ) (e : UpdateEnv) : Option (ℚ × ℚ) :=
  if p.isFirework then some (p.vx, p.vy)
  else
    let dist := mouseDist e.mouse p
    do
      let force ← if dist ≠ 0 ∧ dist < 22500 then checkedDiv (22500 - dist) 22500 else some 0
      let v0 : ℚ × ℚ :=
        if e.mouse = none ∧ e.autoDrift then
          (p.vx + (e.r1 - 0.5) * 0.03, p.vy + (e.r2 - 0.5) * 0.03)
        else (p.vx, p.vy)
      let v1 : ℚ × ℚ ←
        if dist ≠ 0 then
          match e.mouse with
          | some (mx, my) => do
            let qx ← checkedDiv (mx - p.x) (e.sqrtFn dist)
            let qy ← checkedDiv (my - p.y) (e.sqrtFn dist)
            pure (v0.1 + qx * force * 0.1, v0.2 + qy * force * 0.1)
          | none => pure v0
        else pure v0
      pure (v1.1 * (if e.mouse ≠ none then 0.99 else 0.998),
            v1.2 * (if e.mouse ≠ none then 0.99 else 0.998))

/-- `Particle.update` with faulting division. -/
def Particle.updateChecked (p : Particle ℚ) (e : UpdateEnv) : Option (Particle ℚ) :=
  (p.velStepChecked e).map (p.integrate e)

/-- The squared distance to the cursor is a sum of squares, hence
non-negative. -/
lemma mouseDist_nonneg (m : Option (ℚ × ℚ)) (p : Particle ℚ) : 0 ≤ mouseDist m p := by
  cases m with
  | none => exact le_refl 0
  | some c => exact add_nonneg (sq_nonneg _) (sq_nonneg _)

/-- C7: the update step never divides by zero. Whenever the square-root
function sends positive inputs to positive outputs (as `Math.sqrt` does),
the division-checked update succeeds on every particle state and cursor
state and agrees with `update`: the attraction term's division is only
evaluated under the `dist ≠ 0` guard, and the squared distance is taken as
0 whenever the cursor is absent. -/
theorem update_never_divides_by_zero (p : Particle ℚ) (e : UpdateEnv)
    (hs : ∀ d : ℚ, 0 < d → 0 < e.sqrtFn d) :
    p.updateChecked e = some (p.update e) := by
  rw [Particle.updateChecked, Particle.update]
  cases hf : p.isFirework with
  | true => simp [Particle.velStepChecked, Particle.velStep, hf]
  | false =>
    by_cases hd : mouseDist e.mouse p = 0
    · simp [Particle.velStepChecked, Particle.velStep, hf, hd]
    · have hpos : 0 < mouseDist e.mouse p :=
        lt_of_le_of_ne (mouseDist_nonneg e.mouse p) (Ne.symm hd)
      have hsq : e.sqrtFn (mouseDist e.mouse p) ≠ 0 := (hs _ hpos).ne'
      cases hm : e.mouse with
      | none =>
        rw [hm] at hd
        simp [mouseDist] at hd
      | some c =>
        obtain ⟨mx, my⟩ := c
        rw [hm] at hd hsq
        simp [Particle.velStepChecked, Particle.velStep, hf, hm, hd, hsq, checkedDiv]
        split_ifs with hlt <;> simp <;> exact ⟨_, _, ⟨rfl, rfl⟩, rfl⟩

/-- Witness for C7: a concrete ambient particle with the cursor present at
nonzero distance (so the attraction path, including both divisions, is
taken) updates without fault. -/
theorem update_never_divides_by_zero_witness :
    Particle.updateChecked
        { isFirework := false, x := 0, y := 0, vx := 1, vy := 1, size := 2,
          gray := 0, alpha := 1, sizeDirection := 1 }
        { mouse := some (3, 4), width := 100, height := 100, autoDrift := true,
          r1 := 0, r2 := 0, sqrtFn := id } =
      some (Particle.update
        { isFirework := false, x := 0, y := 0, vx := 1, vy := 1, size := 2,
          gray := 0, alpha := 1, sizeDirection := 1 }
        { mouse := some (3, 4), width := 100, height := 100, autoDrift := true,
          r1 := 0, r2 := 0, sqrtFn := id }) :=
  update_never_divides_by_zero _ _ (fun _ hd => hd)

/-- Witness for C4 (amended): the particle of the counterexample run, whose
initial state satisfies the invariant, stays within `[0.9, 4.1]` across two
concrete frames. -/
theorem size_stays_in_overshoot_band_witness :
    0.9 ≤ (runUpdates
        { isFirework := false, x := 50, y := 50, vx := 0, vy := 0, size := 3.95,
          gray := 0, alpha := 1, sizeDirection := 1 }
        (List.replicate 2
          { mouse := none, width := 500, height := 500, autoDrift := false,
            r1 := 0, r2 := 0, sqrtFn := id })).size ∧
    (runUpdates
        { isFirework := false, x := 50, y := 50, vx := 0, vy := 0, size := 3.95,
          gray := 0, alpha := 1, sizeDirection := 1 }
        (List.replicate 2
          { mouse := none, width := 500, height := 500, autoDrift := false,
            r1 := 0, r2 := 0, sqrtFn := id })).size ≤ 4.1 :=
  (size_stays_in_overshoot_band _ _
    ⟨Or.inl rfl, Or.inl (by norm_num)⟩).2

/-! ## Proximity linker: `connectParticles` (src/index.js lines 153-190).

Particles are identified by their index in the `particles` array (the JS
`neighbor !== p` test is reference identity, which index inequality
models). The grid `Map` keyed by the string `"gx,gy"` is modelled by its
denotation `bucket`: for each cell key, the indices whose particle falls in
that cell, in array order (the order `forEach`/`push` produces). -/

/-- `gridSize` (line 154). -/
def gridSize : ℚ := 120

/-- A particle's cell column: `Math.floor(p.x / gridSize)` (lines 158, 165). -/
def cellX (p : Particle ℚ) : ℤ := ⌊p.x / gridSize⌋

/-- A particle's cell row: `Math.floor(p.y / gridSize)` (lines 158, 166). -/
def cellY (p : Particle ℚ) : ℤ := ⌊p.y / gridSize⌋

/-- Squared distance between two particles (lines 174-176). -/
def dist2 (p q : Particle ℚ) : ℚ :=
  (q.x - p.x) * (q.x - p.x) + (q.y - p.y) * (q.y - p.y)

/-- The contents of the grid `Map` at key `k` (lines 157-161): the indices
bucketed into cell `k`, in insertion order. -/
def bucket (ps : List (Particle ℚ)) (k : ℤ × ℤ) : List (Fin ps.length) :=
  (List.finRange ps.length).filter fun j =>
    decide ((cellX (ps.get j), cellY (ps.get j)) = k)

/-- The `dx`/`dy` offsets of the 3×3 neighborhood scan (lines 168-169). -/
def offsets : List ℤ := [-1, 0, 1]

/-- The ordered pairs `(p, neighbor)` for which `connectParticles` draws a
line (lines 164-189): for each particle, for each cell of the 3×3
neighborhood of its own cell, each bucketed particle other than itself at
squared distance below 10000. -/
def gridLinks (ps : List (Particle ℚ)) : List (Fin ps.length × Fin ps.length) :=
  (List.finRange ps.length).flatMap fun i =>
    offsets.flatMap fun dx =>
      offsets.flatMap fun dy =>
        ((bucket ps (cellX (ps.get i) + dx, cellY (ps.get i) + dy)).filter fun j =>
            decide (j ≠ i ∧ dist2 (ps.get i) (ps.get j) < 10000)).map
          fun j => (i, j)

/-- Modelled from the spec: the naive all-pairs scan the grid walk is
claimed equivalent to — every ordered pair of distinct particles at squared
distance below 10000. -/
def naiveLinks (ps : List (Particle ℚ)) : List (Fin ps.length × Fin ps.length) :=
  (List.finRange ps.length).flatMap fun i =>
    ((List.finRange ps.length).filter fun j =>
        decide (j ≠ i ∧ dist2 (ps.get i) (ps.get j) < 10000)).map
      fun j => (i, j)

/-- The stroke opacity of a drawn link at squared distance `d`:
`1 - Math.sqrt(dist) / 100` (line 178). -/
noncomputable def strokeAlpha (d : ℚ) : ℝ :=
  1 - Real.sqrt (d : ℝ) / 100

lemma mem_bucket {ps : List (Particle ℚ)} {k : ℤ × ℤ} {j : Fin ps.length} :
    j ∈ bucket ps k ↔ cellX (ps.get j) = k.1 ∧ cellY (ps.get j) = k.2 := by
  simp [bucket, List.mem_filter, Prod.ext_iff]

lemma bucket_nodup (ps : List (Particle ℚ)) (k : ℤ × ℤ) : (bucket ps k).Nodup :=
  (List.nodup_finRange _).filter _

lemma mem_offsets {z : ℤ} : z ∈ offsets ↔ -1 ≤ z ∧ z ≤ 1 := by
  simp [offsets]
  omega

/-- A coordinate gap below 100 follows from squared distance below 10000. -/
lemma abs_coord_lt_of_dist2_lt {p q : Particle ℚ} (h : dist2 p q < 10000) :
    |q.x - p.x| < 100 ∧ |q.y - p.y| < 100 := by
  rw [dist2] at h
  constructor <;> rw [abs_lt] <;> constructor <;>
    nlinarith [mul_self_nonneg (q.x - p.x), mul_self_nonneg (q.y - p.y)]

/-- Points less than one cell width apart land in the same or an adjacent
cell column. -/
lemma floor_gap (a b : ℚ) (h : |a - b| < 120) :
    -1 ≤ ⌊a / 120⌋ - ⌊b / 120⌋ ∧ ⌊a / 120⌋ - ⌊b / 120⌋ ≤ 1 := by
  rw [abs_lt] at h
  have fa1 : ((⌊a / 120⌋ : ℤ) : ℚ) ≤ a / 120 := Int.floor_le _
  have fa2 : a / 120 < ((⌊a / 120⌋ : ℤ) : ℚ) + 1 := Int.lt_floor_add_one _
  have fb1 : ((⌊b / 120⌋ : ℤ) : ℚ) ≤ b / 120 := Int.floor_le _
  have fb2 : b / 120 < ((⌊b / 120⌋ : ℤ) : ℚ) + 1 := Int.lt_floor_add_one _
  have hq1 : ((⌊a / 120⌋ : ℤ) : ℚ) < ((⌊b / 120⌋ : ℤ) : ℚ) + 2 := by linarith
  have hq2 : ((⌊b / 120⌋ : ℤ) : ℚ) < ((⌊a / 120⌋ : ℤ) : ℚ) + 2 := by linarith
  have hz1 : ⌊a / 120⌋ < ⌊b / 120⌋ + 2 := by exact_mod_cast hq1
  have hz2 : ⌊b / 120⌋ < ⌊a / 120⌋ + 2 := by exact_mod_cast hq2
  omega

/-- Two particles within link range are at most one cell apart on each
axis. -/
lemma cell_gap {p q : Particle ℚ} (h : dist2 p q < 10000) :
    (-1 ≤ cellX q - cellX p ∧ cellX q - cellX p ≤ 1) ∧
    (-1 ≤ cellY q - cellY p ∧ cellY q - cellY p ≤ 1) := by
  obtain ⟨hx, hy⟩ := abs_coord_lt_of_dist2_lt h
  have gx := floor_gap q.x p.x (lt_trans hx (by norm_num))
  have gy := floor_gap q.y p.y (lt_trans hy (by norm_num))
  simp only [cellX, cellY, gridSize]
  exact ⟨gx, gy⟩

/-- The 3×3 neighborhood walk of one particle: the inner three loops of
`connectParticles` for a fixed outer particle `i`. -/
def neighborWalk (ps : List (Particle ℚ)) (i : Fin ps.length) :
    List (Fin ps.length × Fin ps.length) :=
  offsets.flatMap fun dx =>
    offsets.flatMap fun dy =>
      ((bucket ps (cellX (ps.get i) + dx, cellY (ps.get i) + dy)).filter fun j =>
          decide (j ≠ i ∧ dist2 (ps.get i) (ps.get j) < 10000)).map
        fun j => (i, j)

lemma gridLinks_eq_flatMap (ps : List (Particle ℚ)) :
    gridLinks ps = (List.finRange ps.length).flatMap (neighborWalk ps) := rfl

lemma fst_of_mem_neighborWalk {ps : List (Particle ℚ)} {i : Fin ps.length}
    {pr : Fin ps.length × Fin ps.length} (h : pr ∈ neighborWalk ps i) : pr.1 = i := by
  simp only [neighborWalk, List.mem_flatMap, List.mem_map, List.mem_filter] at h
  obtain ⟨dx, -, dy, -, j, -, rfl⟩ := h
  rfl

lemma mem_neighborWalk {ps : List (Particle ℚ)} {i a b : Fin ps.length} :
    (a, b) ∈ neighborWalk ps i ↔
      a = i ∧ b ≠ i ∧ dist2 (ps.get i) (ps.get b) < 10000 := by
  constructor
  · intro h
    have hfst : a = i := fst_of_mem_neighborWalk h
    subst hfst
    simp only [neighborWalk, List.mem_flatMap, List.mem_map, List.mem_filter,
      decide_eq_true_eq] at h
    obtain ⟨dx, -, dy, -, j, ⟨-, hj⟩, heq⟩ := h
    have hb : j = b := congrArg Prod.snd heq
    subst hb
    exact ⟨rfl, hj.1, hj.2⟩
  · rintro ⟨rfl, hne, hdist⟩
    have hcell := cell_gap hdist
    simp only [neighborWalk, List.mem_flatMap, List.mem_map, List.mem_filter,
      decide_eq_true_eq]
    refine ⟨cellX (ps.get b) - cellX (ps.get a),
      mem_offsets.mpr ⟨hcell.1.1, hcell.1.2⟩,
      cellY (ps.get b) - cellY (ps.get a),
      mem_offsets.mpr ⟨hcell.2.1, hcell.2.2⟩,
      b, ⟨mem_bucket.mpr ⟨by ring, by ring⟩, hne, hdist⟩, rfl⟩

lemma mem_gridLinks {ps : List (Particle ℚ)} {a b : Fin ps.length} :
    (a, b) ∈ gridLinks ps ↔ b ≠ a ∧ dist2 (ps.get a) (ps.get b) < 10000 := by
  rw [gridLinks_eq_flatMap, List.mem_flatMap]
  constructor
  · rintro ⟨i, -, hw⟩
    obtain ⟨rfl, h1, h2⟩ := mem_neighborWalk.mp hw
    exact ⟨h1, h2⟩
  · rintro ⟨hne, hdist⟩
    exact ⟨a, List.mem_finRange a, mem_neighborWalk.mpr ⟨rfl, hne, hdist⟩⟩

lemma mem_naiveLinks {ps : List (Particle ℚ)} {a b : Fin ps.length} :
    (a, b) ∈ naiveLinks ps ↔ b ≠ a ∧ dist2 (ps.get a) (ps.get b) < 10000 := by
  simp only [naiveLinks, List.mem_flatMap, List.mem_map, List.mem_filter,
    decide_eq_true_eq]
  constructor
  · rintro ⟨i, -, j, ⟨-, hj⟩, heq⟩
    obtain ⟨rfl, rfl⟩ : i = a ∧ j = b :=
      ⟨congrArg Prod.fst heq, congrArg Prod.snd heq⟩
    exact hj
  · rintro ⟨hne, hdist⟩
    exact ⟨a, List.mem_finRange a, b, ⟨List.mem_finRange b, hne, hdist⟩, rfl⟩

lemma neighborWalk_nodup (ps : List (Particle ℚ)) (i : Fin ps.length) :
    (neighborWalk ps i).Nodup := by
  rw [neighborWalk, List.nodup_flatMap]
  have hoff : offsets.Nodup := by decide
  refine ⟨fun dx _ => ?_, ?_⟩
  · rw [List.nodup_flatMap]
    refine ⟨fun dy _ => ?_, ?_⟩
    · exact ((bucket_nodup ps _).filter _).map fun j1 j2 h =>
        congrArg Prod.snd h
    · refine hoff.pairwise_of_forall_ne ?_
      intro dy1 _ dy2 _ hne
      intro pr h1 h2
      refine absurd ?_ hne
      simp only [List.mem_map, List.mem_filter] at h1 h2
      obtain ⟨j1, ⟨hj1, -⟩, rfl⟩ := h1
      obtain ⟨j2, ⟨hj2, -⟩, heq⟩ := h2
      have hj : j2 = j1 := congrArg Prod.snd heq
      subst hj
      have e1 := (mem_bucket.mp hj1).2
      have e2 := (mem_bucket.mp hj2).2
      omega
  · refine hoff.pairwise_of_forall_ne ?_
    intro dx1 _ dx2 _ hne
    intro pr h1 h2
    refine absurd ?_ hne
    simp only [List.mem_flatMap, List.mem_map, List.mem_filter] at h1 h2
    obtain ⟨dy1, -, j1, ⟨hj1, -⟩, rfl⟩ := h1
    obtain ⟨dy2, -, j2, ⟨hj2, -⟩, heq⟩ := h2
    have hj : j2 = j1 := congrArg Prod.snd heq
    subst hj
    have e1 := (mem_bucket.mp hj1).1
    have e2 := (mem_bucket.mp hj2).1
    omega

lemma gridLinks_nodup (ps : List (Particle ℚ)) : (gridLinks ps).Nodup := by
  rw [gridLinks_eq_flatMap, List.nodup_flatMap]
  refine ⟨fun i _ => neighborWalk_nodup ps i, ?_⟩
  refine (List.nodup_finRange _).pairwise_of_forall_ne ?_
  intro i1 _ i2 _ hne
  intro pr h1 h2
  exact absurd ((fst_of_mem_neighborWalk h1).symm.trans (fst_of_mem_neighborWalk h2)) hne

lemma naiveLinks_nodup (ps : List (Particle ℚ)) : (naiveLinks ps).Nodup := by
  rw [naiveLinks, List.nodup_flatMap]
  refine ⟨fun i _ => ((List.nodup_finRange _).filter _).map fun j1 j2 h =>
    congrArg Prod.snd h, ?_⟩
  refine (List.nodup_finRange _).pairwise_of_forall_ne ?_
  intro i1 _ i2 _ hne
  intro pr h1 h2
  refine absurd ?_ hne
  simp only [List.mem_map, List.mem_filter] at h1 h2
  obtain ⟨j1, -, rfl⟩ := h1
  obtain ⟨j2, -, heq⟩ := h2
  exact (congrArg Prod.fst heq).symm

/-- `dist2` is symmetric. -/
lemma dist2_comm (p q : Particle ℚ) : dist2 p q = dist2 q p := by
  rw [dist2, dist2]
  ring

/-- A concrete ambient particle at a given position, used for the worked
link examples. -/
def probe (x y : ℚ) : Particle ℚ :=
  { isFirework := false, x := x, y := y, vx := 0, vy := 0, size := 2,
    gray := 0, alpha := 1, sizeDirection := 1 }

/-- `count_eq_one_of_mem` for any lawful `BEq` instance. -/
lemma count_one_of_nodup_mem {α : Type*} [BEq α] [LawfulBEq α] {l : List α} {a : α}
    (hn : l.Nodup) (ha : a ∈ l) : l.count a = 1 := by
  induction l with
  | nil => cases ha
  | cons x xs ih =>
    rw [List.count_cons]
    rcases List.mem_cons.mp ha with rfl | hmem
    · have hx : a ∉ xs := (List.nodup_cons.mp hn).1
      rw [List.count_eq_zero.mpr hx]
      simp
    · have hne : a ≠ x := fun h => (List.nodup_cons.mp hn).1 (h ▸ hmem)
      rw [ih (List.nodup_cons.mp hn).2 hmem]
      simp [hne, Ne.symm hne]

/-- C2: the grid-bucketed proximity walk is equivalent to the naive
all-pairs scan. Any two particles at squared distance below 10000 are at
most one cell apart per axis, the grid walk and the naive scan draw exactly
the same ordered pairs, and each unordered in-range pair of distinct
particles is drawn exactly twice — exactly once as `(a, b)` and exactly
once as `(b, a)`. -/
theorem gridLinks_refines_naive (ps : List (Particle ℚ)) :
    (∀ a b : Fin ps.length, dist2 (ps.get a) (ps.get b) < 10000 →
        (-1 ≤ cellX (ps.get b) - cellX (ps.get a) ∧
          cellX (ps.get b) - cellX (ps.get a) ≤ 1) ∧
        (-1 ≤ cellY (ps.get b) - cellY (ps.get a) ∧
          cellY (ps.get b) - cellY (ps.get a) ≤ 1)) ∧
    (∀ pr : Fin ps.length × Fin ps.length, pr ∈ gridLinks ps ↔ pr ∈ naiveLinks ps) ∧
    (∀ a b : Fin ps.length, a ≠ b → dist2 (ps.get a) (ps.get b) < 10000 →
        (gridLinks ps).count (a, b) = 1 ∧ (gridLinks ps).count (b, a) = 1) := by
  refine ⟨fun a b h => cell_gap h, fun pr => ?_, fun a b hne hd => ⟨?_, ?_⟩⟩
  · obtain ⟨a, b⟩ := pr
    rw [mem_gridLinks, mem_naiveLinks]
  · exact count_one_of_nodup_mem (gridLinks_nodup ps)
      (mem_gridLinks.mpr ⟨Ne.symm hne, hd⟩)
  · exact count_one_of_nodup_mem (gridLinks_nodup ps)
      (mem_gridLinks.mpr ⟨hne, dist2_comm (ps.get a) (ps.get b) ▸ hd⟩)

/-- Witness for C2: in the two-particle configuration `(0,0)`, `(50,0)`,
the in-range pair is drawn exactly once from each endpoint. -/
theorem gridLinks_refines_naive_witness :
    (gridLinks [probe 0 0, probe 50 0]).count
        (⟨0, by norm_num⟩, ⟨1, by norm_num⟩) = 1 ∧
    (gridLinks [probe 0 0, probe 50 0]).count
        (⟨1, by norm_num⟩, ⟨0, by norm_num⟩) = 1 :=
  (gridLinks_refines_naive [probe 0 0, probe 50 0]).2.2
    ⟨0, by norm_num⟩ ⟨1, by norm_num⟩ (by decide)
    (by show dist2 (probe 0 0) (probe 50 0) < 10000; norm_num [dist2, probe])

/-- C3: a line is drawn for an ordered pair of particle indices exactly
when the particles are distinct and their squared distance is below 10000,
and the painted stroke opacity at squared distance `d` is
`1 - sqrt d / 100`; in particular particles at `(0,0)` and `(50,0)` are
linked with opacity 1/2, while particles at `(0,0)` and `(150,0)` produce
no link at all. -/
theorem link_drawn_iff_within_100 :
    (∀ (ps : List (Particle ℚ)) (a b : Fin ps.length),
        (a, b) ∈ gridLinks ps ↔ b ≠ a ∧ dist2 (ps.get a) (ps.get b) < 10000) ∧
    ((⟨0, by norm_num⟩, ⟨1, by norm_num⟩) :
        Fin ([probe 0 0, probe 50 0] : List (Particle ℚ)).length ×
        Fin ([probe 0 0, probe 50 0] : List (Particle ℚ)).length) ∈
      gridLinks [probe 0 0, probe 50 0] ∧
    strokeAlpha (dist2 (probe 0 0) (probe 50 0)) = 1 / 2 ∧
    gridLinks [probe 0 0, probe 150 0] = [] := by
  refine ⟨fun ps a b => mem_gridLinks, ?_, ?_, ?_⟩
  · exact mem_gridLinks.mpr
      ⟨by decide, by show dist2 (probe 0 0) (probe 50 0) < 10000; norm_num [dist2, probe]⟩
  · have hd : dist2 (probe 0 0) (probe 50 0) = 2500 := by norm_num [dist2, probe]
    rw [hd, strokeAlpha]
    have h50 : Real.sqrt ((2500 : ℚ) : ℝ) = 50 := by
      rw [show ((2500 : ℚ) : ℝ) = 50 ^ 2 by norm_num]
      exact Real.sqrt_sq (by norm_num)
    rw [h50]
    norm_num
  · rw [List.eq_nil_iff_forall_not_mem]
    rintro ⟨a, b⟩ h
    rw [mem_gridLinks] at h
    fin_cases a <;> fin_cases b <;>
      simp only [List.get] at h <;>
      [skip; skip; skip; skip] <;>
      first
        | exact h.1 rfl
        | (have hfar := h.2; norm_num [dist2, probe] at hfar)

/-! ## The `Particle` constructor (src/index.js lines 67-83, claim C8).

Each `Math.random()` call is a separate parameter `r1 .. r6`, in the order
the source evaluates them: `baseSpeed` (line 69), then the object-literal
fields in source order — `vx` (line 75), `vy` (line 76), `size` (line 77),
`gray` (line 78), `sizeDirection` (line 80). Note that `vx` and `vy` draw
two distinct random angles. -/

/-- `new Particle(x, y, isFirework)` (lines 68-83). -/
noncomputable def mkParticle (x y : ℝ) (isFirework : Bool)
    (r1 r2 r3 r4 r5 r6 : ℝ) : Particle ℝ :=
  let baseSpeed := if isFirework then r1 * 2 + 1 else r1 * 0.5 + 0.3
  { isFirework := isFirework
    x := x
    y := y
    vx := Real.cos (r2 * Real.pi * 2) * baseSpeed
    vy := Real.sin (r3 * Real.pi * 2) * baseSpeed
    size := if isFirework then r4 * 2 + 2 else r4 * 3 + 1
    gray := r5 * 255
    alpha := 1
    sizeDirection := if r6 < 0.5 then -1 else 1 }

/-- Counterexample to C8 as stated: the ambient particle constructed with
`r1 = 0` (drawn base speed 0.3), `r2 = 1/4` (vx angle π/2) and `r3 = 0`
(vy angle 0) has velocity `(cos(π/2)·0.3, sin(0)·0.3) = (0, 0)`, which is
not `s · (cos θ, sin θ)` for any single angle `θ` and any speed
`s ∈ [0.3, 0.8)`: the two components use two independently drawn angles,
so the speed drawn in line 69 is not the magnitude of the velocity. -/
theorem mk_velocity_not_single_angle :
    (mkParticle 0 0 false 0 (1/4) 0 0 0 0).vx = 0 ∧
    (mkParticle 0 0 false 0 (1/4) 0 0 0 0).vy = 0 ∧
    ¬ ∃ s θ : ℝ, 0.3 ≤ s ∧ s < 0.8 ∧
        (mkParticle 0 0 false 0 (1/4) 0 0 0 0).vx = Real.cos θ * s ∧
        (mkParticle 0 0 false 0 (1/4) 0 0 0 0).vy = Real.sin θ * s := by
  have hvx : (mkParticle 0 0 false 0 (1/4) 0 0 0 0).vx = 0 := by
    show Real.cos (1 / 4 * Real.pi * 2) * (0 * 0.5 + 0.3) = 0
    rw [show (1 / 4 : ℝ) * Real.pi * 2 = Real.pi / 2 by ring, Real.cos_pi_div_two]
    ring
  have hvy : (mkParticle 0 0 false 0 (1/4) 0 0 0 0).vy = 0 := by
    show Real.sin (0 * Real.pi * 2) * (0 * 0.5 + 0.3) = 0
    rw [show (0 : ℝ) * Real.pi * 2 = 0 by ring, Real.sin_zero]
    ring
  refine ⟨hvx, hvy, ?_⟩
  rintro ⟨s, θ, hs1, -, h1, h2⟩
  rw [hvx] at h1
  rw [hvy] at h2
  have hsq : s * s = 0 := by
    have hpyth := Real.sin_sq_add_cos_sq θ
    nlinarith [h1.symm, h2.symm]
  nlinarith [hsq, hs1]

/-- C8 amended: the ambient constructor draws the base speed uniformly from
`[0.3, 0.8)` but uses two independently drawn angles — `vx` is
`cos(2π·r2) · s` and `vy` is `sin(2π·r3) · s` with `r2 ≠ r3` in general —
so the velocity's magnitude is `s · sqrt(cos²(2π·r2) + sin²(2π·r3))`, not
`s` in general. -/
theorem mk_velocity_two_angles (x y r1 r2 r3 r4 r5 r6 : ℝ)
    (h0 : 0 ≤ r1) (h1 : r1 < 1) :
    (mkParticle x y false r1 r2 r3 r4 r5 r6).vx =
      Real.cos (r2 * Real.pi * 2) * (r1 * 0.5 + 0.3) ∧
    (mkParticle x y false r1 r2 r3 r4 r5 r6).vy =
      Real.sin (r3 * Real.pi * 2) * (r1 * 0.5 + 0.3) ∧
    0.3 ≤ r1 * 0.5 + 0.3 ∧ r1 * 0.5 + 0.3 < 0.8 :=
  ⟨rfl, rfl, by nlinarith, by nlinarith⟩

/-- Witness for C8 (amended) at `r1 = r2 = r3 = 0`. -/
theorem mk_velocity_two_angles_witness :
    (mkParticle 0 0 false 0 0 0 0 0 0).vx =
      Real.cos (0 * Real.pi * 2) * ((0 : ℝ) * 0.5 + 0.3) ∧
    (mkParticle 0 0 false 0 0 0 0 0 0).vy =
      Real.sin (0 * Real.pi * 2) * ((0 : ℝ) * 0.5 + 0.3) ∧
    (0.3 : ℝ) ≤ 0 * 0.5 + 0.3 ∧ (0 : ℝ) * 0.5 + 0.3 < 0.8 :=
  mk_velocity_two_angles 0 0 0 0 0 0 0 0 (le_refl 0) (by norm_num)

end Grek
